import Mathlib

/-!
A verification development for `BlockValueStore`
(`src/toolchain/sem_ir/block_value_store.h` of the Carbon toolchain).

The store is embedded shallowly:

* `ElementType` (`IdT::ElementType`) is an id-like, trivially copyable value;
  we model it as `Int`, with element-wise list equality standing in for byte
  equality of the fixed-width element sequences.
* `BlockId` (`IdT`) is modelled as `Int`, with `BlockId.Invalid = -1`
  (the toolchain's id types use index `-1` as the invalid sentinel).
* The slab allocator only hands out storage; block contents are what the
  claims are about, so a block is a `List ElementType` and `AllocateCopy`
  is the identity on contents.  `AllocateUninitialized n` yields `n`
  elements of indeterminate value; the model takes those indeterminate
  values as an explicit argument of length `n`.
* `values_` (the `ValueStore`) is a list of blocks indexed densely by id;
  `ValueStore::Add` appends and returns the previous size as the new id.
* `canonical_blocks_` (`llvm::DenseMap` keyed by `CanonicalBlock` under
  `CanonicalBlockDenseMapInfo`) is an association list whose lookups use the
  source's `isEqual`.  A `CanonicalBlock` carries its content bytes plus the
  one address fact `isEqual` consults: whether `data.data() == SpecialData`,
  which is true exactly for the two sentinel keys and never for a key built
  from caller- or arena-owned storage.
* `AddCanonical`'s provisional insert of `{{content}, IdT::Invalid}` is
  overwritten (`it->first.data = Get(id); it->second = id;`) before the call
  returns; the model records the entry in its overwritten form, with the key
  repointed at the arena copy `Get id` (whose bytes equal `content`).
* `CARBON_CHECK` failure (a fatal abort with a diagnostic) is modelled by
  `Set` returning `none`.
-/

namespace Carbon
namespace SemIR

/-- `IdT::ElementType`: an id-like, trivially destructible element value. -/
abbrev ElementType : Type := Int

/-- `ElementType::Invalid`: the invalid sentinel of the element's id type. -/
def ElementType.Invalid : ElementType := -1

/-- `IdT`: an opaque block identifier convertible to/from a dense index. -/
abbrev BlockId : Type := Int

/-- `IdT::Invalid`: the distinguished invalid block id. -/
def BlockId.Invalid : BlockId := -1

/-- `BlockValueStore::CanonicalBlock`: a key of the canonicalization index.
`data` holds the key's content bytes; `sentinelStorage` models the one
address predicate `isEqual` consults, `data.data() == SpecialData`, which
holds exactly for the empty/tombstone keys manufactured by
`CanonicalBlockDenseMapInfo` and never for a key whose `data` points into a
caller buffer or the arena. -/
structure CanonicalBlock where
  data : List ElementType
  sentinelStorage : Bool
deriving DecidableEq

namespace CanonicalBlockDenseMapInfo

/-- `getEmptyKey()`: a zero-length view of `SpecialData`. -/
def getEmptyKey : CanonicalBlock := { data := [], sentinelStorage := true }

/-- `getTombstoneKey()`: a one-element view of `SpecialData`, whose single
element is `ElementType::Invalid`. -/
def getTombstoneKey : CanonicalBlock :=
  { data := [ElementType.Invalid], sentinelStorage := true }

/-- `isEqual(lhs, rhs)`: content equality (`lhs.data == rhs.data`, an
element-wise `ArrayRef` comparison) conjoined with agreement of the
`data() == SpecialData` address predicate on both sides. -/
def isEqual (lhs rhs : CanonicalBlock) : Bool :=
  lhs.data == rhs.data &&
    ((lhs.sentinelStorage == rhs.sentinelStorage))

end CanonicalBlockDenseMapInfo

/-- `BlockValueStore<IdT>`: the dense block table `values_` plus the
canonicalization index `canonical_blocks_`.  The arena `allocator_` is not
modelled beyond the contents it stores. -/
structure BlockValueStore where
  values_ : List (List ElementType)
  canonical_blocks_ : List (CanonicalBlock × BlockId)
deriving DecidableEq

namespace BlockValueStore

/-- A freshly constructed store: no blocks, no canonical entries. -/
def init : BlockValueStore := { values_ := [], canonical_blocks_ := [] }

/-- `size()`: the number of ids issued by the underlying `ValueStore`,
returned as `int` in the source. -/
def size (s : BlockValueStore) : Int := (s.values_.length : Int)

/-- `Get(id)`: the block stored under `id`.  Supplying an invalid id is a
caller error (undefined behavior); the model then yields `[]`. -/
def Get (s : BlockValueStore) (id : BlockId) : List ElementType :=
  s.values_.getD id.toNat []

/-- `Add(content)`: copy `content` into fresh arena memory and register the
copy, obtaining the next dense id. -/
def Add (s : BlockValueStore) (content : List ElementType) :
    BlockValueStore × BlockId :=
  ({ s with values_ := s.values_ ++ [content] }, (s.values_.length : Int))

/-- `DenseMap::find`-style lookup of the association list underlying
`canonical_blocks_`, comparing keys with
`CanonicalBlockDenseMapInfo.isEqual`. -/
def findEntry (m : List (CanonicalBlock × BlockId)) (k : CanonicalBlock) :
    Option (CanonicalBlock × BlockId) :=
  m.find? (fun e => CanonicalBlockDenseMapInfo.isEqual e.1 k)

/-- `AddCanonical(content)`: `canonical_blocks_.insert({{content},
IdT::Invalid})`; on a genuine miss (`added == true`) performs the real
`Add(content)`, repoints the inserted key at the arena copy
(`it->first.data = Get(id)`) and overwrites the placeholder value
(`it->second = id`); returns `it->second`.  The entry appears here in its
overwritten form, which is its state whenever the call has returned. -/
def AddCanonical (s : BlockValueStore) (content : List ElementType) :
    BlockValueStore × BlockId :=
  match findEntry s.canonical_blocks_ { data := content, sentinelStorage := false } with
  | some e => (s, e.2)
  | none =>
    let p := Add s content
    ({ p.1 with
        canonical_blocks_ := p.1.canonical_blocks_ ++
          [({ data := Get p.1 p.2, sentinelStorage := false }, p.2)] },
      p.2)

/-- `MakeCanonical(id)`: `canonical_blocks_.insert({{Get(id)}, id})` and
return the entry's value — the existing canonical id on a hit, `id` itself
on a miss. -/
def MakeCanonical (s : BlockValueStore) (id : BlockId) :
    BlockValueStore × BlockId :=
  match findEntry s.canonical_blocks_ { data := Get s id, sentinelStorage := false } with
  | some e => (s, e.2)
  | none =>
    ({ s with
        canonical_blocks_ := s.canonical_blocks_ ++
          [({ data := Get s id, sentinelStorage := false }, id)] },
      id)

/-- `AddDefaultValue()`: `values_.AddDefaultValue()` registers a
default-constructed block value, i.e. an empty `MutableArrayRef`. -/
def AddDefaultValue (s : BlockValueStore) : BlockValueStore × BlockId :=
  ({ s with values_ := s.values_ ++ [[]] }, (s.values_.length : Int))

/-- `AddUninitialized(size)`: registers `AllocateUninitialized(size)`, a
block of `size` elements of indeterminate value.  The indeterminate
contents are supplied as the argument `junk`, whose length is the `size`
passed in the source. -/
def AddUninitialized (s : BlockValueStore) (junk : List ElementType) :
    BlockValueStore × BlockId :=
  ({ s with values_ := s.values_ ++ [junk] }, (s.values_.length : Int))

/-- `Set(block_id, content)`: `CARBON_CHECK(Get(block_id).empty())` — a
fatal abort (modelled as `none`) when the block's current content is
non-empty — then repoints the stored block reference at a fresh arena copy
of `content`. -/
def Set (s : BlockValueStore) (block_id : BlockId)
    (content : List ElementType) : Option BlockValueStore :=
  if (Get s block_id).isEmpty then
    some { s with values_ := s.values_.set block_id.toNat content }
  else
    none

end BlockValueStore

/-- One public or protected mutating call on a `BlockValueStore`. -/
inductive Op where
  | add (content : List ElementType)
  | addCanonical (content : List ElementType)
  | makeCanonical (id : BlockId)
  | addDefaultValue
  | addUninitialized (junk : List ElementType)
  | set (id : BlockId) (content : List ElementType)

/-- Execute one call for its state effect.  `MakeCanonical` on an id that
was never issued is a caller error (undefined behavior) and is modelled as
a no-op; a fatal `Set` leaves no successor state, so the aborting state
itself is kept. -/
def step (s : BlockValueStore) : Op → BlockValueStore
  | .add c => (s.Add c).1
  | .addCanonical c => (s.AddCanonical c).1
  | .makeCanonical id =>
      if 0 ≤ id ∧ id < s.size then (s.MakeCanonical id).1 else s
  | .addDefaultValue => s.AddDefaultValue.1
  | .addUninitialized j => (s.AddUninitialized j).1
  | .set id c => (s.Set id c).getD s

/-- The store reached from a fresh store by a sequence of calls. -/
def run (ops : List Op) : BlockValueStore :=
  ops.foldl step BlockValueStore.init

/-- No two entries of a canonicalization index hold identical byte content. -/
def noDupContent : List (CanonicalBlock × BlockId) → Bool
  | [] => true
  | e :: rest => (rest.all fun f => e.1.data != f.1.data) && noDupContent rest

/-- Every key of the index lives in caller/arena storage, never in the
sentinel `SpecialData` storage: real insertions only ever build keys from
`content` or `Get(id)`. -/
def keysReal (m : List (CanonicalBlock × BlockId)) : Bool :=
  m.all fun e => !e.1.sentinelStorage

/-- Both index well-formedness facts together. -/
def indexOk (m : List (CanonicalBlock × BlockId)) : Bool :=
  keysReal m && noDupContent m

/-- Every entry of an index maps to a valid id below the given store size. -/
def entriesValidB (m : List (CanonicalBlock × BlockId)) (n : Int) : Bool :=
  m.all fun e => decide (0 ≤ e.2) && decide (e.2 < n)

/-- Full well-formedness of a store's index: keys are real, entry values are
ids of blocks present in the store, and each entry's block still holds the
entry's content. -/
def entriesWF (s : BlockValueStore) : Bool :=
  s.canonical_blocks_.all fun e =>
    !e.1.sentinelStorage && decide (0 ≤ e.2) && decide (e.2 < s.size) &&
      (s.Get e.2 == e.1.data)

/-- The caller contract relevant to index well-formedness: `Set` must
target a valid id whose block has not been made canonical (the source
documents post-canonicalization mutation as a precondition violation, and
`Set`/`Get` on an invalid id as a caller error). -/
def opRespectsCanonical (s : BlockValueStore) : Op → Prop
  | .set id _ => 0 ≤ id ∧ ∀ e ∈ s.canonical_blocks_, e.2 ≠ id
  | _ => True

/-- A sequence of calls respects the canonicalization contract at every
intermediate state it passes through. -/
def opsRespect : BlockValueStore → List Op → Prop
  | _, [] => True
  | s, op :: rest => opRespectsCanonical s op ∧ opsRespect (step s op) rest

end SemIR
end Carbon

namespace Carbon
namespace SemIR

open CanonicalBlockDenseMapInfo

theorem isEqual_mk_false (d c : List ElementType) (b : Bool) :
    isEqual { data := d, sentinelStorage := b } { data := c, sentinelStorage := false } = true ↔
      d = c ∧ b = false := by
  simp [isEqual]

theorem findEntry_eq_none_iff (m : List (CanonicalBlock × BlockId)) (k : CanonicalBlock) :
    BlockValueStore.findEntry m k = none ↔ ∀ e ∈ m, isEqual e.1 k = false := by
  unfold BlockValueStore.findEntry
  rw [List.find?_eq_none]
  constructor
  · intro h e he
    have := h e he
    simpa using this
  · intro h e he
    simp [h e he]

theorem findEntry_append_of_some (m m' : List (CanonicalBlock × BlockId))
    (k : CanonicalBlock) (e : CanonicalBlock × BlockId)
    (h : BlockValueStore.findEntry m k = some e) :
    BlockValueStore.findEntry (m ++ m') k = some e := by
  unfold BlockValueStore.findEntry at h ⊢
  simp [List.find?_append, h]

theorem BlockValueStore.get_add (s : BlockValueStore) (c : List ElementType) :
    (s.Add c).1.Get (s.Add c).2 = c := by
  simp [BlockValueStore.Get, BlockValueStore.Add]

theorem BlockValueStore.get_append_of_lt (v : List (List ElementType))
    (m : List (CanonicalBlock × BlockId)) (c : List ElementType) (id : BlockId)
    (h : id.toNat < v.length) :
    BlockValueStore.Get { values_ := v ++ [c], canonical_blocks_ := m } id =
      BlockValueStore.Get { values_ := v, canonical_blocks_ := m } id := by
  simp [BlockValueStore.Get, List.getD, List.getElem?_append_left h]

theorem BlockValueStore.addCanonical_hit (s : BlockValueStore)
    (c : List ElementType) (e : CanonicalBlock × BlockId)
    (h : findEntry s.canonical_blocks_ { data := c, sentinelStorage := false } = some e) :
    s.AddCanonical c = (s, e.2) := by
  simp [BlockValueStore.AddCanonical, h]

theorem BlockValueStore.addCanonical_miss (s : BlockValueStore)
    (c : List ElementType)
    (h : findEntry s.canonical_blocks_ { data := c, sentinelStorage := false } = none) :
    s.AddCanonical c =
      ({ values_ := s.values_ ++ [c],
         canonical_blocks_ := s.canonical_blocks_ ++
           [({ data := c, sentinelStorage := false }, (s.values_.length : Int))] },
       (s.values_.length : Int)) := by
  have hg : (s.Add c).1.Get (s.Add c).2 = c := BlockValueStore.get_add s c
  simp [BlockValueStore.AddCanonical, h, hg, BlockValueStore.Add] at hg ⊢

theorem BlockValueStore.makeCanonical_hit (s : BlockValueStore) (id : BlockId)
    (e : CanonicalBlock × BlockId)
    (h : findEntry s.canonical_blocks_ { data := s.Get id, sentinelStorage := false } = some e) :
    s.MakeCanonical id = (s, e.2) := by
  simp [BlockValueStore.MakeCanonical, h]

theorem BlockValueStore.makeCanonical_miss (s : BlockValueStore) (id : BlockId)
    (h : findEntry s.canonical_blocks_ { data := s.Get id, sentinelStorage := false } = none) :
    s.MakeCanonical id =
      ({ s with canonical_blocks_ := s.canonical_blocks_ ++
          [({ data := s.Get id, sentinelStorage := false }, id)] }, id) := by
  simp [BlockValueStore.MakeCanonical, h]

end SemIR
end Carbon

namespace Carbon
namespace SemIR

theorem noDupContent_iff_pairwise (m : List (CanonicalBlock × BlockId)) :
    noDupContent m = true ↔
      List.Pairwise (fun a b => a.1.data ≠ b.1.data) m := by
  induction m with
  | nil => simp [noDupContent]
  | cons e rest ih => simp [noDupContent, List.all_eq_true, ih, bne_iff_ne]

theorem noDupContent_append (m : List (CanonicalBlock × BlockId))
    (x : CanonicalBlock × BlockId) :
    noDupContent (m ++ [x]) = true ↔
      noDupContent m = true ∧ ∀ e ∈ m, e.1.data ≠ x.1.data := by
  rw [noDupContent_iff_pairwise, noDupContent_iff_pairwise, List.pairwise_append]
  simp

theorem keysReal_mem (m : List (CanonicalBlock × BlockId))
    (h : keysReal m = true) (e : CanonicalBlock × BlockId) (he : e ∈ m) :
    e.1.sentinelStorage = false := by
  have := List.all_eq_true.mp h e he
  simpa using this

theorem data_ne_of_findEntry_none (m : List (CanonicalBlock × BlockId))
    (c : List ElementType)
    (hreal : keysReal m = true)
    (hf : BlockValueStore.findEntry m { data := c, sentinelStorage := false } = none)
    (e : CanonicalBlock × BlockId) (he : e ∈ m) : e.1.data ≠ c := by
  have hne := (findEntry_eq_none_iff m _).mp hf e he
  have hr := keysReal_mem m hreal e he
  intro hded
  rw [CanonicalBlockDenseMapInfo.isEqual, hded, hr] at hne
  simp at hne

theorem indexOk_addCanonical (s : BlockValueStore) (c : List ElementType)
    (h : indexOk s.canonical_blocks_ = true) :
    indexOk (s.AddCanonical c).1.canonical_blocks_ = true := by
  cases hf : BlockValueStore.findEntry s.canonical_blocks_
      { data := c, sentinelStorage := false } with
  | some e => rw [s.addCanonical_hit c e hf]; exact h
  | none =>
    rw [s.addCanonical_miss c hf]
    unfold indexOk at h ⊢
    rw [Bool.and_eq_true] at h
    obtain ⟨hreal, hdup⟩ := h
    rw [Bool.and_eq_true]
    constructor
    · unfold keysReal at hreal ⊢
      rw [List.all_append, Bool.and_eq_true]
      exact ⟨hreal, by simp⟩
    · rw [noDupContent_append]
      exact ⟨hdup, fun e he => data_ne_of_findEntry_none _ c hreal hf e he⟩

theorem indexOk_makeCanonical (s : BlockValueStore) (id : BlockId)
    (h : indexOk s.canonical_blocks_ = true) :
    indexOk (s.MakeCanonical id).1.canonical_blocks_ = true := by
  cases hf : BlockValueStore.findEntry s.canonical_blocks_
      { data := s.Get id, sentinelStorage := false } with
  | some e => rw [s.makeCanonical_hit id e hf]; exact h
  | none =>
    rw [s.makeCanonical_miss id hf]
    unfold indexOk at h ⊢
    rw [Bool.and_eq_true] at h
    obtain ⟨hreal, hdup⟩ := h
    rw [Bool.and_eq_true]
    constructor
    · unfold keysReal at hreal ⊢
      rw [List.all_append, Bool.and_eq_true]
      exact ⟨hreal, by simp⟩
    · rw [noDupContent_append]
      exact ⟨hdup, fun e he => data_ne_of_findEntry_none _ _ hreal hf e he⟩

theorem set_canonical_unchanged (s s2 : BlockValueStore) (id : BlockId)
    (c : List ElementType) (h : s.Set id c = some s2) :
    s2.canonical_blocks_ = s.canonical_blocks_ := by
  unfold BlockValueStore.Set at h
  by_cases hemp : (s.Get id).isEmpty
  · rw [if_pos hemp] at h
    cases h
    rfl
  · rw [if_neg hemp] at h
    cases h

theorem indexOk_step (s : BlockValueStore) (op : Op)
    (h : indexOk s.canonical_blocks_ = true) :
    indexOk (step s op).canonical_blocks_ = true := by
  cases op with
  | add c => simpa [step, BlockValueStore.Add] using h
  | addCanonical c => exact indexOk_addCanonical s c h
  | makeCanonical id =>
    by_cases hid : 0 ≤ id ∧ id < s.size
    · rw [step, if_pos hid]
      exact indexOk_makeCanonical s id h
    · rw [step, if_neg hid]
      exact h
  | addDefaultValue => simpa [step, BlockValueStore.AddDefaultValue] using h
  | addUninitialized j => simpa [step, BlockValueStore.AddUninitialized] using h
  | set id c =>
    cases hset : s.Set id c with
    | none => simpa [step, hset] using h
    | some s2 =>
      have hc := set_canonical_unchanged s s2 id c hset
      simp only [step, hset, Option.getD_some]
      rw [hc]
      exact h

theorem indexOk_foldl (ops : List Op) :
    ∀ s : BlockValueStore, indexOk s.canonical_blocks_ = true →
      indexOk (ops.foldl step s).canonical_blocks_ = true := by
  induction ops with
  | nil => exact fun s h => h
  | cons op rest ih => exact fun s h => ih _ (indexOk_step s op h)

theorem addCanonical_same_id (s : BlockValueStore) (c : List ElementType) :
    ((s.AddCanonical c).1.AddCanonical c).2 = (s.AddCanonical c).2 := by
  cases hf : BlockValueStore.findEntry s.canonical_blocks_
      { data := c, sentinelStorage := false } with
  | some e =>
    rw [s.addCanonical_hit c e hf, s.addCanonical_hit c e hf]
  | none =>
    rw [s.addCanonical_miss c hf]
    have hfind2 : BlockValueStore.findEntry
        (s.canonical_blocks_ ++
          [({ data := c, sentinelStorage := false }, (s.values_.length : Int))])
        { data := c, sentinelStorage := false } =
        some ({ data := c, sentinelStorage := false }, (s.values_.length : Int)) := by
      unfold BlockValueStore.findEntry at hf ⊢
      rw [List.find?_append, hf]
      simp [CanonicalBlockDenseMapInfo.isEqual]
    rw [BlockValueStore.addCanonical_hit _ c _ hfind2]

theorem run_noDupContent (ops : List Op) :
    noDupContent (run ops).canonical_blocks_ = true := by
  have h := indexOk_foldl ops BlockValueStore.init rfl
  unfold indexOk at h
  rw [Bool.and_eq_true] at h
  exact h.2

/-- Claim C1: `AddCanonical` called twice with byte-equal content returns
the same `BlockId` both times (the index's equality is over content bytes
alone, so the source buffer is immaterial), and the canonicalization index
never holds two entries with identical byte content, in any store reachable
by a sequence of store operations. -/
theorem addCanonical_idempotent_and_content_unique :
    (∀ (s : BlockValueStore) (c : List ElementType),
      ((s.AddCanonical c).1.AddCanonical c).2 = (s.AddCanonical c).2) ∧
    (∀ ops : List Op, noDupContent (run ops).canonical_blocks_ = true) :=
  ⟨fun s c => addCanonical_same_id s c, fun ops => run_noDupContent ops⟩

/-- Claim C2: for every content sequence, including the empty one,
`Get (Add content)` returns a list equal to the content element-for-element
(hence with the same length and order). -/
theorem get_add_roundtrip :
    ∀ (s : BlockValueStore) (c : List ElementType),
      (s.Add c).1.Get (s.Add c).2 = c :=
  fun s c => BlockValueStore.get_add s c

end SemIR
end Carbon

namespace Carbon
namespace SemIR

theorem findEntry_eq_some (m : List (CanonicalBlock × BlockId))
    (k : CanonicalBlock) (e : CanonicalBlock × BlockId)
    (h : BlockValueStore.findEntry m k = some e) :
    e ∈ m ∧ CanonicalBlockDenseMapInfo.isEqual e.1 k = true := by
  unfold BlockValueStore.findEntry at h
  refine ⟨List.mem_of_find?_eq_some h, ?_⟩
  simpa using List.find?_some h

theorem isEqual_false_key (b : CanonicalBlock) (c : List ElementType)
    (h : CanonicalBlockDenseMapInfo.isEqual b
      { data := c, sentinelStorage := false } = true) :
    b.data = c ∧ b.sentinelStorage = false := by
  unfold CanonicalBlockDenseMapInfo.isEqual at h
  simp only [Bool.and_eq_true, beq_iff_eq] at h
  exact h

theorem entriesWF_spec (s : BlockValueStore) (h : entriesWF s = true)
    (e : CanonicalBlock × BlockId) (he : e ∈ s.canonical_blocks_) :
    e.1.sentinelStorage = false ∧ 0 ≤ e.2 ∧ e.2 < s.size ∧
      s.Get e.2 = e.1.data := by
  have hb := List.all_eq_true.mp h e he
  simp only [Bool.and_eq_true, decide_eq_true_eq, beq_iff_eq,
    Bool.not_eq_true'] at hb
  tauto

theorem findEntry_append_self (m : List (CanonicalBlock × BlockId))
    (c : List ElementType) (v : BlockId)
    (hf : BlockValueStore.findEntry m
      { data := c, sentinelStorage := false } = none) :
    BlockValueStore.findEntry
        (m ++ [({ data := c, sentinelStorage := false }, v)])
        { data := c, sentinelStorage := false } =
      some ({ data := c, sentinelStorage := false }, v) := by
  unfold BlockValueStore.findEntry at hf ⊢
  rw [List.find?_append, hf]
  simp [CanonicalBlockDenseMapInfo.isEqual]

theorem step_canonical_extends (s : BlockValueStore) (op : Op) :
    ∃ l, (step s op).canonical_blocks_ = s.canonical_blocks_ ++ l := by
  cases op with
  | add c => exact ⟨[], by simp [step, BlockValueStore.Add]⟩
  | addCanonical c =>
    cases hf : BlockValueStore.findEntry s.canonical_blocks_
        { data := c, sentinelStorage := false } with
    | some e => exact ⟨[], by simp [step, s.addCanonical_hit c e hf]⟩
    | none =>
      refine ⟨[({ data := c, sentinelStorage := false },
        (s.values_.length : Int))], ?_⟩
      simp only [step]
      rw [s.addCanonical_miss c hf]
  | makeCanonical id =>
    by_cases hid : 0 ≤ id ∧ id < s.size
    · cases hf : BlockValueStore.findEntry s.canonical_blocks_
          { data := s.Get id, sentinelStorage := false } with
      | some e =>
        exact ⟨[], by simp only [step, if_pos hid]; rw [s.makeCanonical_hit id e hf]; simp⟩
      | none =>
        refine ⟨[({ data := s.Get id, sentinelStorage := false }, id)], ?_⟩
        simp only [step, if_pos hid]
        rw [s.makeCanonical_miss id hf]
    · exact ⟨[], by simp only [step, if_neg hid]; simp⟩
  | addDefaultValue => exact ⟨[], by simp [step, BlockValueStore.AddDefaultValue]⟩
  | addUninitialized j => exact ⟨[], by simp [step, BlockValueStore.AddUninitialized]⟩
  | set id c =>
    cases hset : s.Set id c with
    | none => exact ⟨[], by simp [step, hset]⟩
    | some s2 =>
      exact ⟨[], by
        simp only [step, hset, Option.getD_some]
        rw [set_canonical_unchanged s s2 id c hset]
        simp⟩

theorem foldl_canonical_extends (ops : List Op) :
    ∀ s : BlockValueStore,
      ∃ l, (ops.foldl step s).canonical_blocks_ = s.canonical_blocks_ ++ l := by
  induction ops with
  | nil => exact fun s => ⟨[], by simp⟩
  | cons op rest ih =>
    intro s
    obtain ⟨l1, h1⟩ := step_canonical_extends s op
    obtain ⟨l2, h2⟩ := ih (step s op)
    exact ⟨l1 ++ l2, by rw [List.foldl_cons, h2, h1, List.append_assoc]⟩

/-- Claim C4: if content `c` is already canonical under `id2` and
`MakeCanonical` is called on a different block `id1` whose content is also
`c`, the call returns `id2` (not `id1`) and leaves the store — index
entries, block storage and `size()` — entirely unchanged. -/
theorem makeCanonical_collision (s : BlockValueStore) (c : List ElementType)
    (id1 id2 : BlockId) (e : CanonicalBlock × BlockId)
    (hfind : BlockValueStore.findEntry s.canonical_blocks_
      { data := c, sentinelStorage := false } = some e)
    (hval : e.2 = id2)
    (hget : s.Get id1 = c)
    (hne : id1 ≠ id2) :
    s.MakeCanonical id1 = (s, id2) := by
  subst hval
  exact s.makeCanonical_hit id1 e (by rw [hget]; exact hfind)

/-- Witness for the claim C4 theorem at a concrete store: block 0 and block
1 both hold `[1]`, block 1 is canonical for `[1]`, and `MakeCanonical 0`
returns id 1 leaving the store unchanged. -/
theorem makeCanonical_collision_witness :
    BlockValueStore.findEntry
        (((BlockValueStore.init.Add [1]).1.AddCanonical [1]).1).canonical_blocks_
        { data := [1], sentinelStorage := false } =
      some ({ data := [1], sentinelStorage := false }, 1) ∧
    (((BlockValueStore.init.Add [1]).1.AddCanonical [1]).1).Get 0 = [1] ∧
    ((0 : BlockId) ≠ 1) ∧
    (((BlockValueStore.init.Add [1]).1.AddCanonical [1]).1).MakeCanonical 0 =
      ((((BlockValueStore.init.Add [1]).1.AddCanonical [1]).1), 1) :=
  ⟨by decide, by decide, by decide,
    makeCanonical_collision _ [1] 0 1
      ({ data := [1], sentinelStorage := false }, 1)
      (by decide) (by decide) (by decide) (by decide)⟩

/-- Claim C5: if block `id` holds content `c` not yet canonical,
`MakeCanonical id` returns `id` itself, and a subsequent `AddCanonical c` —
even after an arbitrary further sequence of store operations — returns `id`
and allocates nothing (it leaves the store unchanged). -/
theorem makeCanonical_promotion (s : BlockValueStore) (id : BlockId)
    (c : List ElementType) (ops : List Op)
    (hf : BlockValueStore.findEntry s.canonical_blocks_
      { data := c, sentinelStorage := false } = none)
    (hget : s.Get id = c) :
    (s.MakeCanonical id).2 = id ∧
    ((List.foldl step (s.MakeCanonical id).1 ops).AddCanonical c).2 = id ∧
    ((List.foldl step (s.MakeCanonical id).1 ops).AddCanonical c).1 =
      List.foldl step (s.MakeCanonical id).1 ops := by
  have hmiss := s.makeCanonical_miss id (by rw [hget]; exact hf)
  rw [hget] at hmiss
  obtain ⟨l, hl⟩ := foldl_canonical_extends ops (s.MakeCanonical id).1
  have hcan : (s.MakeCanonical id).1.canonical_blocks_ =
      s.canonical_blocks_ ++ [({ data := c, sentinelStorage := false }, id)] := by
    rw [hmiss]
  rw [hcan, List.append_assoc] at hl
  have h1 := findEntry_append_self s.canonical_blocks_ c id hf
  have h2 := findEntry_append_of_some _ l _ _ h1
  rw [List.append_assoc] at h2
  have hfind : BlockValueStore.findEntry
      (List.foldl step (s.MakeCanonical id).1 ops).canonical_blocks_
      { data := c, sentinelStorage := false } =
      some ({ data := c, sentinelStorage := false }, id) := by
    rw [hl]; exact h2
  have hhit := BlockValueStore.addCanonical_hit _ c _ hfind
  refine ⟨by rw [hmiss], ?_, ?_⟩
  · rw [hhit]
  · rw [hhit]

/-- Witness for the claim C5 theorem: block 0 holds `[1]`, which is not yet
canonical; after promotion and an unrelated `Add`, `AddCanonical [1]`
still returns id 0. -/
theorem makeCanonical_promotion_witness :
    BlockValueStore.findEntry
        ((BlockValueStore.init.Add [1]).1).canonical_blocks_
        { data := [1], sentinelStorage := false } = none ∧
    ((BlockValueStore.init.Add [1]).1).Get 0 = [1] ∧
    (((BlockValueStore.init.Add [1]).1).MakeCanonical 0).2 = 0 ∧
    ((List.foldl step (((BlockValueStore.init.Add [1]).1).MakeCanonical 0).1
        [Op.add [2]]).AddCanonical [1]).2 = 0 :=
  ⟨by decide, by decide,
    (makeCanonical_promotion _ 0 [1] [Op.add [2]] (by decide) (by decide)).1,
    (makeCanonical_promotion _ 0 [1] [Op.add [2]] (by decide) (by decide)).2.1⟩

/-- Claim C6: in a well-formed store (each canonical entry's id refers to a
block of the store still holding the entry's content), two sequential
`AddCanonical` calls with contents that differ in length or in any element
return different `BlockId`s. -/
theorem addCanonical_distinct (s : BlockValueStore) (c1 c2 : List ElementType)
    (hwf : entriesWF s = true) (hne : c1 ≠ c2) :
    ((s.AddCanonical c1).1.AddCanonical c2).2 ≠ (s.AddCanonical c1).2 := by
  cases hf1 : BlockValueStore.findEntry s.canonical_blocks_
      { data := c1, sentinelStorage := false } with
  | some e1 =>
    have h1a : (s.AddCanonical c1).1 = s := by rw [s.addCanonical_hit c1 e1 hf1]
    have h1b : (s.AddCanonical c1).2 = e1.2 := by rw [s.addCanonical_hit c1 e1 hf1]
    obtain ⟨he1m, he1eq⟩ := findEntry_eq_some _ _ _ hf1
    obtain ⟨he1data, _⟩ := isEqual_false_key _ _ he1eq
    obtain ⟨_, _, hlt1, hget1⟩ := entriesWF_spec s hwf e1 he1m
    rw [h1a, h1b]
    cases hf2 : BlockValueStore.findEntry s.canonical_blocks_
        { data := c2, sentinelStorage := false } with
    | some e2 =>
      have h2b : (s.AddCanonical c2).2 = e2.2 := by
        rw [s.addCanonical_hit c2 e2 hf2]
      rw [h2b]
      obtain ⟨he2m, he2eq⟩ := findEntry_eq_some _ _ _ hf2
      obtain ⟨he2data, _⟩ := isEqual_false_key _ _ he2eq
      obtain ⟨_, _, _, hget2⟩ := entriesWF_spec s hwf e2 he2m
      intro heq
      apply hne
      calc c1 = e1.1.data := he1data.symm
        _ = s.Get e1.2 := hget1.symm
        _ = s.Get e2.2 := by rw [heq]
        _ = e2.1.data := hget2
        _ = c2 := he2data
    | none =>
      have h2b : (s.AddCanonical c2).2 = (s.values_.length : Int) := by
        rw [s.addCanonical_miss c2 hf2]
      rw [h2b]
      simp only [BlockValueStore.size] at hlt1
      intro heq
      rw [← heq] at hlt1
      exact lt_irrefl _ hlt1
  | none =>
    have h1b : (s.AddCanonical c1).2 = (s.values_.length : Int) := by
      rw [s.addCanonical_miss c1 hf1]
    have hcan : (s.AddCanonical c1).1.canonical_blocks_ =
        s.canonical_blocks_ ++
          [({ data := c1, sentinelStorage := false },
            (s.values_.length : Int))] := by
      rw [s.addCanonical_miss c1 hf1]
    have hval : (s.AddCanonical c1).1.values_ = s.values_ ++ [c1] := by
      rw [s.addCanonical_miss c1 hf1]
    rw [h1b]
    cases hf2 : BlockValueStore.findEntry (s.AddCanonical c1).1.canonical_blocks_
        { data := c2, sentinelStorage := false } with
    | some e2 =>
      have h2b : ((s.AddCanonical c1).1.AddCanonical c2).2 = e2.2 := by
        rw [(s.AddCanonical c1).1.addCanonical_hit c2 e2 hf2]
      rw [h2b]
      obtain ⟨he2m, he2eq⟩ := findEntry_eq_some _ _ _ hf2
      obtain ⟨he2data, _⟩ := isEqual_false_key _ _ he2eq
      rw [hcan] at he2m
      rcases List.mem_append.mp he2m with hold | hnew
      · obtain ⟨_, _, hlt2, _⟩ := entriesWF_spec s hwf e2 hold
        simp only [BlockValueStore.size] at hlt2
        intro heq
        rw [← heq] at hlt2
        exact lt_irrefl _ hlt2
      · exfalso
        apply hne
        rw [List.mem_singleton.mp hnew] at he2data
        exact he2data
    | none =>
      have h2b : ((s.AddCanonical c1).1.AddCanonical c2).2 =
          ((s.AddCanonical c1).1.values_.length : Int) := by
        rw [(s.AddCanonical c1).1.addCanonical_miss c2 hf2]
      rw [h2b, hval]
      simp only [List.length_append, List.length_singleton]
      intro heq
      exact absurd (Int.natCast_inj.mp heq) (Nat.succ_ne_self _)

/-- Witness for the claim C6 theorem: on the fresh (trivially well-formed)
store, `AddCanonical [1]` then `AddCanonical [2]` yield different ids. -/
theorem addCanonical_distinct_witness :
    entriesWF BlockValueStore.init = true ∧
    ([1] : List ElementType) ≠ [2] ∧
    ((BlockValueStore.init.AddCanonical [1]).1.AddCanonical [2]).2 ≠
      (BlockValueStore.init.AddCanonical [1]).2 :=
  ⟨by decide, by decide,
    addCanonical_distinct BlockValueStore.init [1] [2] (by decide) (by decide)⟩

end SemIR
end Carbon

namespace Carbon
namespace SemIR

theorem set_values_length (s s2 : BlockValueStore) (id : BlockId)
    (c : List ElementType) (h : s.Set id c = some s2) :
    s2.values_.length = s.values_.length := by
  unfold BlockValueStore.Set at h
  by_cases hemp : (s.Get id).isEmpty
  · rw [if_pos hemp] at h
    cases h
    simp
  · rw [if_neg hemp] at h
    cases h

/-- Claim C7: `size()` counts every block ever issued — it starts at 0,
increases by exactly one on every `Add`, `AddDefaultValue` and
`AddUninitialized`, increases by exactly one on an `AddCanonical` miss and
not at all on an `AddCanonical` hit, and is unchanged by `MakeCanonical`
and by `Set` (whether it succeeds or aborts). -/
theorem size_accounting (s : BlockValueStore) (c c' j : List ElementType)
    (id id' : BlockId) :
    (s.Add c).1.size = s.size + 1 ∧
    s.AddDefaultValue.1.size = s.size + 1 ∧
    (s.AddUninitialized j).1.size = s.size + 1 ∧
    ((s.AddCanonical c).1.size =
      if (BlockValueStore.findEntry s.canonical_blocks_
          { data := c, sentinelStorage := false }).isSome
      then s.size else s.size + 1) ∧
    (s.MakeCanonical id).1.size = s.size ∧
    ((s.Set id' c').getD s).size = s.size ∧
    BlockValueStore.init.size = 0 := by
  refine ⟨?_, ?_, ?_, ?_, ?_, ?_, rfl⟩
  · simp [BlockValueStore.size, BlockValueStore.Add]
  · simp [BlockValueStore.size, BlockValueStore.AddDefaultValue]
  · simp [BlockValueStore.size, BlockValueStore.AddUninitialized]
  · cases hf : BlockValueStore.findEntry s.canonical_blocks_
        { data := c, sentinelStorage := false } with
    | some e =>
      have h1 : (s.AddCanonical c).1 = s := by rw [s.addCanonical_hit c e hf]
      rw [h1]
      simp
    | none =>
      have h1 : (s.AddCanonical c).1.values_ = s.values_ ++ [c] := by
        rw [s.addCanonical_miss c hf]
      simp [BlockValueStore.size, h1]
  · cases hf : BlockValueStore.findEntry s.canonical_blocks_
        { data := s.Get id, sentinelStorage := false } with
    | some e =>
      have h1 : (s.MakeCanonical id).1 = s := by rw [s.makeCanonical_hit id e hf]
      rw [h1]
    | none =>
      have h1 : (s.MakeCanonical id).1.values_ = s.values_ := by
        rw [s.makeCanonical_miss id hf]
      simp [BlockValueStore.size, h1]
  · cases hset : s.Set id' c' with
    | none => simp
    | some s2 =>
      have h1 := set_values_length s s2 id' c' hset
      simp [BlockValueStore.size, h1]

/-- Claim C8: a zero-length block behaves like any other content: `Add []`
yields a valid id (nonnegative, below `size()`, not `Invalid`) whose `Get`
is empty, `AddCanonical []` deduplicates against a previous empty canonical
block, and a key built from genuine (non-`SpecialData`) storage — in
particular a zero-length one — is never `isEqual` to the index's internal
empty-slot or tombstone sentinel keys. -/
theorem zero_length_handling (s : BlockValueStore) (c : List ElementType) :
    (s.Add []).1.Get (s.Add []).2 = [] ∧
    0 ≤ (s.Add []).2 ∧
    (s.Add []).2 < (s.Add []).1.size ∧
    (s.Add []).2 ≠ BlockId.Invalid ∧
    ((s.AddCanonical []).1.AddCanonical []).2 = (s.AddCanonical []).2 ∧
    CanonicalBlockDenseMapInfo.isEqual { data := c, sentinelStorage := false }
      CanonicalBlockDenseMapInfo.getEmptyKey = false ∧
    CanonicalBlockDenseMapInfo.isEqual { data := c, sentinelStorage := false }
      CanonicalBlockDenseMapInfo.getTombstoneKey = false := by
  refine ⟨BlockValueStore.get_add s [], ?_, ?_, ?_, addCanonical_same_id s [], ?_, ?_⟩
  · simp [BlockValueStore.Add]
  · simp only [BlockValueStore.Add, BlockValueStore.size, List.length_append,
      List.length_singleton]
    rw [Nat.cast_lt]
    exact Nat.lt_succ_self _
  · simp only [BlockValueStore.Add, BlockId.Invalid]
    intro heq
    have h0 := Int.natCast_nonneg s.values_.length
    rw [heq] at h0
    norm_num at h0
  · simp [CanonicalBlockDenseMapInfo.isEqual, CanonicalBlockDenseMapInfo.getEmptyKey]
  · simp [CanonicalBlockDenseMapInfo.isEqual,
      CanonicalBlockDenseMapInfo.getTombstoneKey]

/-- Claim C9: `Set` aborts exactly when the block's current content is
non-empty — it keeps no count of prior `Set` calls — so `Set id []` on an
empty block succeeds, leaves the block empty, and a further `Set` on the
same id still succeeds. -/
theorem set_aborts_iff_nonempty (s : BlockValueStore) (id : BlockId)
    (c c' : List ElementType) :
    (s.Set id c = none ↔ s.Get id ≠ []) ∧
    (s.Get id = [] →
      ((s.Set id []).getD s).Get id = [] ∧
      (((s.Set id []).getD s).Set id c').isSome = true) := by
  constructor
  · unfold BlockValueStore.Set
    by_cases hemp : (s.Get id).isEmpty
    · rw [if_pos hemp]
      rw [List.isEmpty_iff] at hemp
      simp [hemp]
    · rw [if_neg hemp]
      rw [List.isEmpty_iff] at hemp
      simp [hemp]
  · intro hemp
    have hset : s.Set id [] =
        some { s with values_ := s.values_.set id.toNat [] } := by
      unfold BlockValueStore.Set
      rw [if_pos (by simp [hemp])]
    rw [hset]
    simp only [Option.getD_some]
    have hget2 : BlockValueStore.Get
        { s with values_ := s.values_.set id.toNat [] } id = [] := by
      unfold BlockValueStore.Get at hemp ⊢
      by_cases hlt : id.toNat < s.values_.length
      · simp only [List.getD, List.get?_eq_getElem?]
        rw [List.getElem?_set_self hlt]
        rfl
      · rw [List.set_eq_of_length_le (le_of_not_lt hlt)]
        exact hemp
    refine ⟨hget2, ?_⟩
    unfold BlockValueStore.Set
    rw [if_pos (by simp [hget2])]
    rfl

/-- Witness for the claim C9 theorem at a concrete store: block 0 of
`AddDefaultValue` is empty, so `Set 0 []` succeeds, keeps it empty, and a
further `Set` still succeeds; the abort condition is equivalent to
non-empty current content. -/
theorem set_aborts_iff_nonempty_witness :
    (BlockValueStore.init.AddDefaultValue.1.Set 0 [1] = none ↔
      BlockValueStore.init.AddDefaultValue.1.Get 0 ≠ []) ∧
    BlockValueStore.init.AddDefaultValue.1.Get 0 = [] ∧
    ((BlockValueStore.init.AddDefaultValue.1.Set 0 []).getD
        BlockValueStore.init.AddDefaultValue.1).Get 0 = [] ∧
    (((BlockValueStore.init.AddDefaultValue.1.Set 0 []).getD
        BlockValueStore.init.AddDefaultValue.1).Set 0 [2]).isSome = true :=
  ⟨(set_aborts_iff_nonempty BlockValueStore.init.AddDefaultValue.1 0 [1] [2]).1,
    by decide,
    ((set_aborts_iff_nonempty BlockValueStore.init.AddDefaultValue.1 0 [1] [2]).2
      (by decide)).1,
    ((set_aborts_iff_nonempty BlockValueStore.init.AddDefaultValue.1 0 [1] [2]).2
      (by decide)).2⟩

end SemIR
end Carbon

namespace Carbon
namespace SemIR

/-- Counterexample to claim C3 as stated: reserve a block via
`AddUninitialized(1)` (its one indeterminate element modelled as `0`).
The block's content already has length 1, so the very first
`Set(id, [5])` — content of length `n = 1` — fails the
`CARBON_CHECK(Get(block_id).empty())` and aborts instead of succeeding. -/
theorem set_after_addUninitialized_fatal_cex :
    ((BlockValueStore.init.AddUninitialized [0]).1.Set
        (BlockValueStore.init.AddUninitialized [0]).2 [5]) = none ∧
    ([(0 : ElementType)]).length = 1 ∧
    ([(5 : ElementType)]).length = 1 :=
  ⟨by decide, rfl, rfl⟩

/-- Claim C3 (amended): for a block id reserved via `AddUninitialized(n)`
the first `Set(id, C)` succeeds exactly when `n = 0` — for `n > 0` the
block already holds `n` (indeterminate) elements and the very first `Set`
is fatal (aborts with a diagnostic, modelled by `none`); in general any
`Set` call on an id whose current content is non-empty aborts rather than
returning or recovering. -/
theorem addUninitialized_set_amended (s : BlockValueStore)
    (junk c c' : List ElementType) (id : BlockId) :
    ((s.AddUninitialized junk).1.Set (s.AddUninitialized junk).2 c).isSome =
      junk.isEmpty ∧
    (s.Get id ≠ [] → s.Set id c' = none) := by
  constructor
  · have hget : (s.AddUninitialized junk).1.Get
        (s.AddUninitialized junk).2 = junk := by
      simp [BlockValueStore.Get, BlockValueStore.AddUninitialized]
    unfold BlockValueStore.Set
    rw [hget]
    by_cases hemp : junk.isEmpty
    · rw [if_pos hemp, hemp]
      rfl
    · rw [if_neg hemp]
      rw [Bool.not_eq_true] at hemp
      rw [hemp]
      rfl
  · intro hne
    unfold BlockValueStore.Set
    rw [if_neg (by simpa [List.isEmpty_iff] using hne)]

/-- Witness for the amended claim C3 theorem at concrete inputs: on a store
whose block 0 holds `[1]`, reserving via `AddUninitialized(1)` makes the
first `Set` abort (`isSome = false = [0].isEmpty`), and `Set` on the
non-empty block 0 aborts. -/
theorem addUninitialized_set_amended_witness :
    (((BlockValueStore.init.Add [1]).1.AddUninitialized [0]).1.Set
        ((BlockValueStore.init.Add [1]).1.AddUninitialized [0]).2 [5]).isSome =
      ([(0 : ElementType)]).isEmpty ∧
    ((BlockValueStore.init.Add [1]).1.Get 0 ≠ [] ∧
      (BlockValueStore.init.Add [1]).1.Set 0 [7] = none) :=
  ⟨(addUninitialized_set_amended (BlockValueStore.init.Add [1]).1
      [0] [5] [7] 0).1,
    by decide,
    (addUninitialized_set_amended (BlockValueStore.init.Add [1]).1
      [0] [5] [7] 0).2 (by decide)⟩

theorem entriesValidB_mono (m : List (CanonicalBlock × BlockId)) (n n' : Int)
    (h : entriesValidB m n = true) (hle : n ≤ n') :
    entriesValidB m n' = true := by
  unfold entriesValidB at h ⊢
  rw [List.all_eq_true] at h ⊢
  intro e he
  have hb := h e he
  simp only [Bool.and_eq_true, decide_eq_true_eq] at hb ⊢
  exact ⟨hb.1, lt_of_lt_of_le hb.2 hle⟩

theorem entriesValidB_append (m : List (CanonicalBlock × BlockId))
    (x : CanonicalBlock × BlockId) (n : Int)
    (h : entriesValidB m n = true) (h0 : 0 ≤ x.2) (h1 : x.2 < n) :
    entriesValidB (m ++ [x]) n = true := by
  unfold entriesValidB at h ⊢
  rw [List.all_append, Bool.and_eq_true]
  exact ⟨h, by simp [h0, h1]⟩

theorem size_nonneg (s : BlockValueStore) : 0 ≤ s.size :=
  Int.natCast_nonneg s.values_.length

theorem validEntries_step (s : BlockValueStore) (op : Op)
    (h : entriesValidB s.canonical_blocks_ s.size = true) :
    entriesValidB (step s op).canonical_blocks_ (step s op).size = true := by
  cases op with
  | add c =>
    have hcan : (step s (Op.add c)).canonical_blocks_ = s.canonical_blocks_ := by
      simp [step, BlockValueStore.Add]
    have hsz : s.size ≤ (step s (Op.add c)).size := by
      simp only [step, BlockValueStore.size, BlockValueStore.Add,
        List.length_append, List.length_singleton]
      rw [Nat.cast_le]
      exact Nat.le_succ _
    rw [hcan]
    exact entriesValidB_mono _ _ _ h hsz
  | addDefaultValue =>
    have hcan : (step s Op.addDefaultValue).canonical_blocks_ =
        s.canonical_blocks_ := by
      simp [step, BlockValueStore.AddDefaultValue]
    have hsz : s.size ≤ (step s Op.addDefaultValue).size := by
      simp only [step, BlockValueStore.size, BlockValueStore.AddDefaultValue,
        List.length_append, List.length_singleton]
      rw [Nat.cast_le]
      exact Nat.le_succ _
    rw [hcan]
    exact entriesValidB_mono _ _ _ h hsz
  | addUninitialized j =>
    have hcan : (step s (Op.addUninitialized j)).canonical_blocks_ =
        s.canonical_blocks_ := by
      simp [step, BlockValueStore.AddUninitialized]
    have hsz : s.size ≤ (step s (Op.addUninitialized j)).size := by
      simp only [step, BlockValueStore.size, BlockValueStore.AddUninitialized,
        List.length_append, List.length_singleton]
      rw [Nat.cast_le]
      exact Nat.le_succ _
    rw [hcan]
    exact entriesValidB_mono _ _ _ h hsz
  | set id c =>
    cases hset : s.Set id c with
    | none => simpa [step, hset] using h
    | some s2 =>
      have hcan := set_canonical_unchanged s s2 id c hset
      have hlen := set_values_length s s2 id c hset
      simp only [step, hset, Option.getD_some]
      rw [hcan]
      have hsz : s2.size = s.size := by
        simp [BlockValueStore.size, hlen]
      rw [hsz]
      exact h
  | addCanonical c =>
    cases hf : BlockValueStore.findEntry s.canonical_blocks_
        { data := c, sentinelStorage := false } with
    | some e =>
      have h1 : (s.AddCanonical c).1 = s := by rw [s.addCanonical_hit c e hf]
      simpa [step, h1] using h
    | none =>
      have hcan : (s.AddCanonical c).1.canonical_blocks_ =
          s.canonical_blocks_ ++
            [({ data := c, sentinelStorage := false },
              (s.values_.length : Int))] := by
        rw [s.addCanonical_miss c hf]
      have hval : (s.AddCanonical c).1.values_ = s.values_ ++ [c] := by
        rw [s.addCanonical_miss c hf]
      have hsz : (s.AddCanonical c).1.size = s.size + 1 := by
        simp [BlockValueStore.size, hval]
      simp only [step]
      rw [hcan, hsz]
      refine entriesValidB_append _ _ _
        (entriesValidB_mono _ _ _ h (by simp)) ?_ ?_
      · exact Int.natCast_nonneg _
      · show (s.values_.length : Int) < s.size + 1
        unfold BlockValueStore.size
        rw [Int.lt_add_one_iff]
  | makeCanonical id =>
    by_cases hid : 0 ≤ id ∧ id < s.size
    · cases hf : BlockValueStore.findEntry s.canonical_blocks_
          { data := s.Get id, sentinelStorage := false } with
      | some e =>
        have h1 : (s.MakeCanonical id).1 = s := by
          rw [s.makeCanonical_hit id e hf]
        simp only [step, if_pos hid]
        rw [h1]
        exact h
      | none =>
        have hcan : (s.MakeCanonical id).1.canonical_blocks_ =
            s.canonical_blocks_ ++
              [({ data := s.Get id, sentinelStorage := false }, id)] := by
          rw [s.makeCanonical_miss id hf]
        have hval : (s.MakeCanonical id).1.values_ = s.values_ := by
          rw [s.makeCanonical_miss id hf]
        have hsz : (s.MakeCanonical id).1.size = s.size := by
          simp [BlockValueStore.size, hval]
        simp only [step, if_pos hid]
        rw [hcan, hsz]
        exact entriesValidB_append _ _ _ h hid.1 hid.2
    · simp only [step, if_neg hid]
      exact h

theorem validEntries_foldl (ops : List Op) :
    ∀ s : BlockValueStore,
      entriesValidB s.canonical_blocks_ s.size = true →
      entriesValidB (ops.foldl step s).canonical_blocks_
        (ops.foldl step s).size = true := by
  induction ops with
  | nil => exact fun s h => h
  | cons op rest ih => exact fun s h => ih _ (validEntries_step s op h)

/-- Claim C10: in any store reachable by a sequence of store operations,
every entry of the canonicalization index maps to a valid block id (a
nonnegative index of a block present in the store — never the `Invalid`
placeholder, which `AddCanonical` overwrites before returning), and
`AddCanonical` itself never returns `Invalid`. -/
theorem addCanonical_never_invalid (ops : List Op) (c : List ElementType) :
    ((run ops).AddCanonical c).2 ≠ BlockId.Invalid ∧
    entriesValidB (run ops).canonical_blocks_ (run ops).size = true := by
  have hinv : entriesValidB (run ops).canonical_blocks_ (run ops).size = true :=
    validEntries_foldl ops BlockValueStore.init rfl
  refine ⟨?_, hinv⟩
  cases hf : BlockValueStore.findEntry (run ops).canonical_blocks_
      { data := c, sentinelStorage := false } with
  | some e =>
    have h2 : ((run ops).AddCanonical c).2 = e.2 := by
      rw [BlockValueStore.addCanonical_hit _ c e hf]
    rw [h2]
    obtain ⟨hm, _⟩ := findEntry_eq_some _ _ _ hf
    have hb := List.all_eq_true.mp hinv e hm
    simp only [Bool.and_eq_true, decide_eq_true_eq] at hb
    unfold BlockId.Invalid
    intro heq
    rw [heq] at hb
    exact absurd hb.1 (by norm_num)
  | none =>
    have h2 : ((run ops).AddCanonical c).2 = ((run ops).values_.length : Int) := by
      rw [BlockValueStore.addCanonical_miss _ c hf]
    rw [h2]
    unfold BlockId.Invalid
    intro heq
    have h0 := Int.natCast_nonneg (run ops).values_.length
    rw [heq] at h0
    norm_num at h0

end SemIR
end Carbon

namespace Carbon
namespace SemIR

theorem entriesWF_intro (s : BlockValueStore)
    (h : ∀ e ∈ s.canonical_blocks_, e.1.sentinelStorage = false ∧
      0 ≤ e.2 ∧ e.2 < s.size ∧ s.Get e.2 = e.1.data) :
    entriesWF s = true := by
  unfold entriesWF
  rw [List.all_eq_true]
  intro e he
  obtain ⟨h1, h2, h3, h4⟩ := h e he
  simp [h1, h2, h3, h4]

theorem get_grow (s : BlockValueStore) (c : List ElementType) (id : BlockId)
    (h0 : 0 ≤ id) (h1 : id < s.size) :
    BlockValueStore.Get { s with values_ := s.values_ ++ [c] } id =
      s.Get id := by
  have hlt : id.toNat < s.values_.length := by
    rw [Int.toNat_lt h0]
    simpa [BlockValueStore.size] using h1
  unfold BlockValueStore.Get
  simp [List.getD, List.getElem?_append_left hlt]

theorem entriesWF_grow (s : BlockValueStore) (c : List ElementType)
    (hwf : entriesWF s = true) :
    entriesWF { s with values_ := s.values_ ++ [c] } = true := by
  refine entriesWF_intro _ ?_
  intro e he
  obtain ⟨h1, h2, h3, h4⟩ := entriesWF_spec s hwf e he
  refine ⟨h1, h2, ?_, ?_⟩
  · have hsz : BlockValueStore.size { s with values_ := s.values_ ++ [c] } =
        s.size + 1 := by
      simp [BlockValueStore.size]
    rw [hsz]
    exact lt_trans h3 (lt_add_one _)
  · rw [get_grow s c e.2 h2 h3]
    exact h4

theorem entriesWF_addCanonical (s : BlockValueStore) (c : List ElementType)
    (hwf : entriesWF s = true) :
    entriesWF (s.AddCanonical c).1 = true := by
  cases hf : BlockValueStore.findEntry s.canonical_blocks_
      { data := c, sentinelStorage := false } with
  | some e =>
    have h1 : (s.AddCanonical c).1 = s := by rw [s.addCanonical_hit c e hf]
    rw [h1]
    exact hwf
  | none =>
    have hmiss : (s.AddCanonical c).1 =
        { values_ := s.values_ ++ [c],
          canonical_blocks_ := s.canonical_blocks_ ++
            [({ data := c, sentinelStorage := false },
              (s.values_.length : Int))] } := by
      rw [s.addCanonical_miss c hf]
    rw [hmiss]
    refine entriesWF_intro _ ?_
    intro e he
    rcases List.mem_append.mp he with hold | hnew
    · obtain ⟨h1, h2, h3, h4⟩ := entriesWF_spec s hwf e hold
      refine ⟨h1, h2, ?_, ?_⟩
      · show e.2 < ((s.values_ ++ [c]).length : Int)
        simp only [List.length_append, List.length_singleton, Nat.cast_add,
          Nat.cast_one]
        have h3' : e.2 < (s.values_.length : Int) := by
          simpa [BlockValueStore.size] using h3
        exact lt_trans h3' (lt_add_one _)
      · have := get_grow s c e.2 h2 h3
        unfold BlockValueStore.Get at this ⊢
        simp only at this ⊢
        rw [this]
        exact h4
    · rw [List.mem_singleton.mp hnew]
      refine ⟨rfl, Int.natCast_nonneg _, ?_, ?_⟩
      · show (s.values_.length : Int) < ((s.values_ ++ [c]).length : Int)
        simp only [List.length_append, List.length_singleton, Nat.cast_add,
          Nat.cast_one]
        exact lt_add_one _
      · show BlockValueStore.Get _ ((s.values_.length : Int)) = c
        unfold BlockValueStore.Get
        simp

theorem entriesWF_makeCanonical (s : BlockValueStore) (id : BlockId)
    (h0 : 0 ≤ id) (h1 : id < s.size)
    (hwf : entriesWF s = true) :
    entriesWF (s.MakeCanonical id).1 = true := by
  cases hf : BlockValueStore.findEntry s.canonical_blocks_
      { data := s.Get id, sentinelStorage := false } with
  | some e =>
    have h2 : (s.MakeCanonical id).1 = s := by rw [s.makeCanonical_hit id e hf]
    rw [h2]
    exact hwf
  | none =>
    have hmiss : (s.MakeCanonical id).1 =
        { s with canonical_blocks_ := s.canonical_blocks_ ++
            [({ data := s.Get id, sentinelStorage := false }, id)] } := by
      rw [s.makeCanonical_miss id hf]
    rw [hmiss]
    refine entriesWF_intro _ ?_
    intro e he
    rcases List.mem_append.mp he with hold | hnew
    · obtain ⟨g1, g2, g3, g4⟩ := entriesWF_spec s hwf e hold
      exact ⟨g1, g2, g3, g4⟩
    · rw [List.mem_singleton.mp hnew]
      exact ⟨rfl, h0, h1, rfl⟩

theorem entriesWF_set (s s2 : BlockValueStore) (id : BlockId)
    (c : List ElementType)
    (hok : 0 ≤ id ∧ ∀ e ∈ s.canonical_blocks_, e.2 ≠ id)
    (hset : s.Set id c = some s2)
    (hwf : entriesWF s = true) :
    entriesWF s2 = true := by
  have hcan := set_canonical_unchanged s s2 id c hset
  have hval : s2.values_ = s.values_.set id.toNat c := by
    unfold BlockValueStore.Set at hset
    by_cases hemp : (s.Get id).isEmpty
    · rw [if_pos hemp] at hset
      cases hset
      rfl
    · rw [if_neg hemp] at hset
      cases hset
  refine entriesWF_intro _ ?_
  intro e he
  rw [hcan] at he
  obtain ⟨g1, g2, g3, g4⟩ := entriesWF_spec s hwf e he
  have hsz : s2.size = s.size := by
    simp [BlockValueStore.size, hval]
  refine ⟨g1, g2, by rw [hsz]; exact g3, ?_⟩
  have hne : e.2.toNat ≠ id.toNat := by
    intro hEq
    apply hok.2 e he
    have ha := Int.toNat_of_nonneg g2
    have hb := Int.toNat_of_nonneg hok.1
    rw [← ha, ← hb, hEq]
  unfold BlockValueStore.Get at g4 ⊢
  rw [hval]
  rw [List.getD, List.get?_eq_getElem?, List.getElem?_set_ne (fun h => hne h.symm)]
  rw [List.getD, List.get?_eq_getElem?] at g4
  exact g4

theorem entriesWF_step (s : BlockValueStore) (op : Op)
    (hwf : entriesWF s = true) (hok : opRespectsCanonical s op) :
    entriesWF (step s op) = true := by
  cases op with
  | add c => exact entriesWF_grow s c hwf
  | addDefaultValue => exact entriesWF_grow s [] hwf
  | addUninitialized j => exact entriesWF_grow s j hwf
  | addCanonical c => exact entriesWF_addCanonical s c hwf
  | makeCanonical id =>
    by_cases hid : 0 ≤ id ∧ id < s.size
    · simp only [step, if_pos hid]
      exact entriesWF_makeCanonical s id hid.1 hid.2 hwf
    · simp only [step, if_neg hid]
      exact hwf
  | set id c =>
    cases hset : s.Set id c with
    | none => simpa [step, hset] using hwf
    | some s2 =>
      simp only [step, hset, Option.getD_some]
      exact entriesWF_set s s2 id c hok hset hwf

/-- Under the documented caller contract (no `Set` on a canonicalized or
invalid id), index well-formedness — the hypothesis of the claim C6
theorem — holds in every store reachable from a fresh one. -/
theorem entriesWF_run (ops : List Op) :
    ∀ s : BlockValueStore, entriesWF s = true → opsRespect s ops →
      entriesWF (ops.foldl step s) = true := by
  induction ops with
  | nil => exact fun s h _ => h
  | cons op rest ih =>
    exact fun s h hok => ih _ (entriesWF_step s op h hok.1) hok.2

end SemIR
end Carbon
